import Mathlib

/-!
Shallow embedding of the dlib cuDNN tensor-operations layer
(`dlib/dnn/cudnn_dlibapi.h`) and verification of its specification.

The header under verification declares the operations and documents their
contracts in `requires`/`ensures` comments; the implementation translation
units are not part of the sources, so each operation is modelled from the
documented contract (marked `Modelled from the spec:` below).  The inline
code that is present in the header (the `tensor_descriptor` move
constructor, move assignment and `swap`) is translated directly.
-/

namespace dlib

namespace cuda

/-- A 4-D tensor with dimensions (num_samples, k, nr, nc) and a value
function giving the element at each index, generic over the scalar type. -/
structure tensor (α : Type) where
  num_samples : ℕ
  k : ℕ
  nr : ℕ
  nc : ℕ
  val : ℕ → ℕ → ℕ → ℕ → α

/-- Two tensors have the same dimensions (`have_same_dimensions`). -/
def have_same_dimensions {α β : Type} (a : tensor α) (b : tensor β) : Prop :=
  a.num_samples = b.num_samples ∧ a.k = b.k ∧ a.nr = b.nr ∧ a.nc = b.nc

instance {α β : Type} (a : tensor α) (b : tensor β) :
    Decidable (have_same_dimensions a b) := by
  unfold have_same_dimensions; infer_instance

/-- `dot(a,b)`: sum of elementwise products over all valid indices of `a`. -/
def dot {α : Type} [Field α] (a b : tensor α) : α :=
  ∑ s ∈ Finset.range a.num_samples, ∑ j ∈ Finset.range a.k,
    ∑ r ∈ Finset.range a.nr, ∑ c ∈ Finset.range a.nc,
      a.val s j r c * b.val s j r c

/-- Modelled from the spec: `add(beta, dest, alpha, src)` computes
`dest = beta*dest + alpha*src` with per-dimension broadcasting; each
dimension of `src` must match the corresponding dimension of `dest` or be 1,
and in the latter case the single value along that dimension of `src` is
used for every index of `dest` along that dimension.  Broadcasting is
realised by reducing each `dest` index modulo the corresponding `src`
dimension (the `src[n%N,k%K,r%R,c%C]` formulation of the contract). -/
def add {α : Type} [Field α] (beta : α) (dest : tensor α) (alpha : α)
    (src : tensor α) : tensor α :=
  { dest with val := fun n j r c =>
      beta * dest.val n j r c +
        alpha * src.val (n % src.num_samples) (j % src.k) (r % src.nr) (c % src.nc) }

/-- Modelled from the spec: `add_conv_bias_gradient(grad, gradient_input)`
assigns to each channel of `grad` (shape `(1,k,1,1)`) the sum of
`gradient_input` over all samples, rows and columns at that channel. -/
def add_conv_bias_gradient {α : Type} [Field α] (grad gradient_input : tensor α) :
    tensor α :=
  { grad with val := fun _ j _ _ =>
      ∑ s ∈ Finset.range gradient_input.num_samples,
        ∑ r ∈ Finset.range gradient_input.nr,
          ∑ c ∈ Finset.range gradient_input.nc,
            gradient_input.val s j r c }

/-- The logistic sigmoid on the reals: `1/(1+exp(-x))`. -/
noncomputable def sigmoidFn (x : ℝ) : ℝ := 1 / (1 + Real.exp (-x))

/-- Modelled from the spec: `sigmoid(dest, src)` writes
`1/(1+exp(-src[i]))` into every element of `dest`. -/
noncomputable def sigmoid (dest src : tensor ℝ) : tensor ℝ :=
  { dest with val := fun s j r c => sigmoidFn (src.val s j r c) }

/-- Modelled from the spec: `relu(dest, src)` writes `max(0, src[i])` into
every element of `dest`. -/
def relu {α : Type} [LinearOrderedField α] (dest src : tensor α) : tensor α :=
  { dest with val := fun s j r c => max 0 (src.val s j r c) }

/-- Modelled from the spec: `tanh(dest, src)` writes `tanh(src[i])` into
every element of `dest`. -/
noncomputable def tanh (dest src : tensor ℝ) : tensor ℝ :=
  { dest with val := fun s j r c => Real.tanh (src.val s j r c) }

/-- Modelled from the spec: `sigmoid_gradient(grad, dest, gradient_input)`
computes the gradient of `dot(gradient_input, dest)` with respect to the
forward input `SRC` (where `dest = sigmoid(SRC)`) and assigns it to `grad`:
elementwise `gradient_input * dest * (1 - dest)`. -/
def sigmoid_gradient {α : Type} [Field α] (grad dest gradient_input : tensor α) :
    tensor α :=
  { grad with val := fun s j r c =>
      gradient_input.val s j r c * (dest.val s j r c * (1 - dest.val s j r c)) }

/-- Modelled from the spec: `relu_gradient(grad, dest, gradient_input)`
computes the gradient of `dot(gradient_input, dest)` with respect to the
forward input `SRC` (where `dest = relu(SRC)`) and assigns it to `grad`:
elementwise `gradient_input` where `dest > 0` and `0` elsewhere. -/
def relu_gradient {α : Type} [LinearOrderedField α]
    (grad dest gradient_input : tensor α) : tensor α :=
  { grad with val := fun s j r c =>
      if 0 < dest.val s j r c then gradient_input.val s j r c else 0 }

/-- Modelled from the spec: `tanh_gradient(grad, dest, gradient_input)`
computes the gradient of `dot(gradient_input, dest)` with respect to the
forward input `SRC` (where `dest = tanh(SRC)`) and assigns it to `grad`:
elementwise `gradient_input * (1 - dest^2)`. -/
def tanh_gradient {α : Type} [Field α] (grad dest gradient_input : tensor α) :
    tensor α :=
  { grad with val := fun s j r c =>
      gradient_input.val s j r c * (1 - dest.val s j r c ^ 2) }

/-- Modelled from the spec: `softmax(dest, src)` computes, at each spatial
location (fixed sample, row, column), the normalized exponential of the
channel values at that location. -/
noncomputable def softmax (dest src : tensor ℝ) : tensor ℝ :=
  { dest with val := fun s j r c =>
      Real.exp (src.val s j r c) /
        ∑ i ∈ Finset.range src.k, Real.exp (src.val s i r c) }

/-- Element of `t` at integer coordinates `(y, x)` of the image plane
`(s, j)`, with zero padding outside the image boundary. -/
def paddedVal {α : Type} [Zero α] (t : tensor α) (s j : ℕ) (y x : ℤ) : α :=
  if 0 ≤ y ∧ y < (t.nr : ℤ) ∧ 0 ≤ x ∧ x < (t.nc : ℤ) then
    t.val s j y.toNat x.toNat
  else 0

/-- Modelled from the spec: forward convolution `tensor_conv::operator()`.
The output has `num_samples = data.num_samples`, `k = filters.num_samples`,
`nr = 1+(data.nr-1)/stride_y` and `nc = 1+(data.nc-1)/stride_x`; each output
element correlates one filter with the zero-padded window of `data` whose
top-left corner is at `(r*stride_y - filters.nr/2, c*stride_x - filters.nc/2)`
(the padding that realises the documented output shape). -/
def conv {α : Type} [Field α] (data filters : tensor α)
    (stride_y stride_x : ℕ) : tensor α :=
  { num_samples := data.num_samples
    k := filters.num_samples
    nr := 1 + (data.nr - 1) / stride_y
    nc := 1 + (data.nc - 1) / stride_x
    val := fun s f r c =>
      ∑ j ∈ Finset.range data.k, ∑ i ∈ Finset.range filters.nr,
        ∑ i2 ∈ Finset.range filters.nc,
          filters.val f j i i2 *
            paddedVal data s j ((r * stride_y + i : ℤ) - filters.nr / 2)
              ((c * stride_x + i2 : ℤ) - filters.nc / 2) }

/-- The per-element increment that `get_gradient_for_data` adds into
`data_gradient`: the partial derivative of `dot(OUT, gradient_input)` with
respect to the data element at `(s, j, y, x)`, where `OUT = conv data filters`. -/
def conv_data_grad {α : Type} [Field α] (gradient_input filters : tensor α)
    (stride_y stride_x : ℕ) (s j y x : ℕ) : α :=
  ∑ f ∈ Finset.range filters.num_samples,
    ∑ r ∈ Finset.range gradient_input.nr,
      ∑ c ∈ Finset.range gradient_input.nc,
        ∑ i ∈ Finset.range filters.nr,
          ∑ i2 ∈ Finset.range filters.nc,
            if (y : ℤ) = (r * stride_y + i : ℤ) - filters.nr / 2 ∧
                (x : ℤ) = (c * stride_x + i2 : ℤ) - filters.nc / 2 then
              gradient_input.val s f r c * filters.val f j i i2
            else 0

/-- Modelled from the spec: `tensor_conv::get_gradient_for_data` computes the
gradient of `dot(OUT, gradient_input)` with respect to `data` and ADDS it to
`data_gradient` (accumulation). -/
def get_gradient_for_data {α : Type} [Field α]
    (gradient_input filters data_gradient : tensor α)
    (stride_y stride_x : ℕ) : tensor α :=
  { data_gradient with
    val := fun s j y x =>
      data_gradient.val s j y x +
        conv_data_grad gradient_input filters stride_y stride_x s j y x }

/-- The value that `get_gradient_for_filters` assigns to the filter-gradient
element at `(f, j, i, i2)`: the partial derivative of
`dot(OUT, gradient_input)` with respect to that filter weight. -/
def conv_filters_grad {α : Type} [Field α] (gradient_input data : tensor α)
    (stride_y stride_x fnr fnc : ℕ) (f j i i2 : ℕ) : α :=
  ∑ s ∈ Finset.range gradient_input.num_samples,
    ∑ r ∈ Finset.range gradient_input.nr,
      ∑ c ∈ Finset.range gradient_input.nc,
        gradient_input.val s f r c *
          paddedVal data s j ((r * stride_y + i : ℤ) - fnr / 2)
            ((c * stride_x + i2 : ℤ) - fnc / 2)

/-- Modelled from the spec: `tensor_conv::get_gradient_for_filters` computes
the gradient of `dot(OUT, gradient_input)` with respect to `filters` and
ASSIGNS it to `filters_gradient` (overwrite). -/
def get_gradient_for_filters {α : Type} [Field α]
    (gradient_input data filters_gradient : tensor α)
    (stride_y stride_x : ℕ) : tensor α :=
  { filters_gradient with
    val := fun f j i i2 =>
      conv_filters_grad gradient_input data stride_y stride_x
        filters_gradient.nr filters_gradient.nc f j i i2 }

/-- The list of elements of `src` lying in the pooling window of size
`window_height × window_width` anchored at `(r*stride_y, c*stride_x)` of the
image plane `(s, j)`, clipped to the image boundary. -/
def windowElems {α : Type} (src : tensor α)
    (window_height window_width stride_y stride_x s j r c : ℕ) : List α :=
  (List.range window_height).flatMap fun i =>
    (List.range window_width).filterMap fun i2 =>
      if r * stride_y + i < src.nr ∧ c * stride_x + i2 < src.nc then
        some (src.val s j (r * stride_y + i) (c * stride_x + i2))
      else none

/-- Modelled from the spec: `max_pool::operator()(dest, src)` produces `dest`
with `num_samples = src.num_samples`, `k = src.k`, `nr = src.nr/stride_y`,
`nc = src.nc/stride_x` (floor division), each element being the maximum of
`src` over the boundary-clipped window anchored at `(r*stride_y, c*stride_x)`
(computed as a fold of `max` seeded with the window's anchor element). -/
def max_pool {α : Type} [LinearOrder α] (src : tensor α)
    (window_height window_width stride_y stride_x : ℕ) : tensor α :=
  { num_samples := src.num_samples
    k := src.k
    nr := src.nr / stride_y
    nc := src.nc / stride_x
    val := fun s j r c =>
      (windowElems src window_height window_width stride_y stride_x s j r c).foldl
        max (src.val s j (r * stride_y) (c * stride_x)) }

/-- The shape bound to a `tensor_descriptor`, or `none` before any binding
(the default, unbound state produced by the default constructor). -/
structure tensor_descriptor where
  shape : Option (ℤ × ℤ × ℤ × ℤ)
deriving DecidableEq

/-- The default-constructed descriptor: unbound. -/
def tensor_descriptor.default : tensor_descriptor := { shape := none }

/-- `tensor_descriptor::swap`: exchanges the native handles (and hence the
bound shapes) of the two descriptors, returning `(this, item)` after the
exchange. -/
def tensor_descriptor.swap (a b : tensor_descriptor) :
    tensor_descriptor × tensor_descriptor :=
  ({ shape := b.shape }, { shape := a.shape })

/-- `tensor_descriptor(tensor_descriptor&& item)`: default-constructs the new
descriptor, then swaps it with `item`; returns
`(constructed descriptor, moved-from item)`. -/
def tensor_descriptor.move_construct (item : tensor_descriptor) :
    tensor_descriptor × tensor_descriptor :=
  tensor_descriptor.swap tensor_descriptor.default item

/-- `operator=(tensor_descriptor&& item)`: swaps `*this` with `item`;
returns `(assigned-to this, moved-from item)`. -/
def tensor_descriptor.move_assign (dst item : tensor_descriptor) :
    tensor_descriptor × tensor_descriptor :=
  tensor_descriptor.swap dst item

/-- The header deletes the copy constructor (`tensor_descriptor(const
tensor_descriptor&) = delete`): copy construction is not available. -/
def tensor_descriptor.copy_constructible : Bool := false

/-- The header deletes copy assignment (`operator=(const tensor_descriptor&)
= delete`): copy assignment is not available. -/
def tensor_descriptor.copy_assignable : Bool := false

/-- Modelled from the spec: `tensor_descriptor::set_size(n,k,nr,nc)` binds
the given shape; if any of the arguments is 0 then all four are set to 0. -/
def tensor_descriptor.set_size (_d : tensor_descriptor) (n k nr nc : ℤ) :
    tensor_descriptor :=
  if n = 0 ∨ k = 0 ∨ nr = 0 ∨ nc = 0 then { shape := some (0, 0, 0, 0) }
  else { shape := some (n, k, nr, nc) }

/-- Modelled from the spec: `tensor_descriptor::get_size` reads back the
currently bound shape. -/
def tensor_descriptor.get_size (d : tensor_descriptor) :
    Option (ℤ × ℤ × ℤ × ℤ) :=
  d.shape

/-- A tensor of the given dimensions whose elements all equal `v`. -/
def cTensor {α : Type} (ns k nr nc : ℕ) (v : α) : tensor α :=
  { num_samples := ns, k := k, nr := nr, nc := nc, val := fun _ _ _ _ => v }

/-! ### Theorems -/

/-- C8 counterexample: move-assigning from a bound descriptor into another
bound descriptor leaves the moved-from descriptor holding the destination's
previous handle, not the default (unbound) state. -/
theorem move_assign_leaves_source_bound :
    (tensor_descriptor.move_assign { shape := some (1, 2, 3, 4) }
        { shape := some (5, 6, 7, 8) }).2 ≠ tensor_descriptor.default := by
  decide

/-- C8 (amended): `tensor_descriptor` is move-only (copy construction and
copy assignment are deleted); move construction transfers the handle to the
new descriptor and leaves the moved-from descriptor in the default (unbound)
state; move assignment swaps the two descriptors, so it transfers the
source's handle to the destination but leaves the moved-from descriptor
holding the destination's previous handle (default only when the destination
was default). -/
theorem tensor_descriptor_move_semantics (dst item : tensor_descriptor) :
    tensor_descriptor.copy_constructible = false ∧
    tensor_descriptor.copy_assignable = false ∧
    tensor_descriptor.move_construct item = (item, tensor_descriptor.default) ∧
    tensor_descriptor.move_assign dst item = (item, dst) :=
  ⟨rfl, rfl, rfl, rfl⟩

/-- C9: `set_size(n,k,nr,nc)` normalizes any zero argument to the all-zero
shape, otherwise binds exactly `(n,k,nr,nc)`; a subsequent `get_size`
returns the shape last bound, independent of the descriptor's prior state. -/
theorem set_size_get_size_spec (d d2 : tensor_descriptor) (n k nr nc : ℤ) :
    ((n = 0 ∨ k = 0 ∨ nr = 0 ∨ nc = 0) →
      (d.set_size n k nr nc).get_size = some (0, 0, 0, 0)) ∧
    ((n ≠ 0 ∧ k ≠ 0 ∧ nr ≠ 0 ∧ nc ≠ 0) →
      (d.set_size n k nr nc).get_size = some (n, k, nr, nc)) ∧
    d.set_size n k nr nc = d2.set_size n k nr nc := by
  refine ⟨fun h => ?_, fun h => ?_, rfl⟩
  · simp [tensor_descriptor.set_size, tensor_descriptor.get_size, h]
  · obtain ⟨h1, h2, h3, h4⟩ := h
    simp [tensor_descriptor.set_size, tensor_descriptor.get_size, h1, h2, h3, h4]

/-- C9 witness: evaluating `set_size`/`get_size` on concrete shapes. -/
theorem set_size_get_size_spec_witness :
    (tensor_descriptor.default.set_size 0 1 2 3).get_size = some (0, 0, 0, 0) ∧
    (tensor_descriptor.default.set_size 1 2 3 4).get_size = some (1, 2, 3, 4) :=
  ⟨(set_size_get_size_spec tensor_descriptor.default tensor_descriptor.default
      0 1 2 3).1 (Or.inl rfl),
   (set_size_get_size_spec tensor_descriptor.default tensor_descriptor.default
      1 2 3 4).2.1 (by decide)⟩

/-- A broadcast index reduced modulo a source dimension that either matches
the destination dimension or is 1 picks index 0 in the latter case and the
destination index otherwise. -/
lemma broadcast_index_mod (m d i : ℕ) (h : m = d ∨ m = 1) (hi : i < d) :
    i % m = if m = 1 then 0 else i := by
  by_cases hm : m = 1
  · simp [hm, Nat.mod_one]
  · rcases h with h | h
    · simp [hm, Nat.mod_eq_of_lt (h ▸ hi)]
    · exact absurd h hm

/-- C4: `add(beta, dest, alpha, src)` with per-dimension broadcasting sets
every element of `dest` to `beta*dest[n,k,r,c] + alpha*src[n',k',r',c']`,
where each `src` index is the corresponding `dest` index when the dimensions
match and 0 when the `src` dimension is 1; the result keeps `dest`'s
dimensions. -/
theorem add_broadcast_spec (beta alpha : ℚ) (dest src : tensor ℚ)
    (hn : src.num_samples = dest.num_samples ∨ src.num_samples = 1)
    (hk : src.k = dest.k ∨ src.k = 1)
    (hr : src.nr = dest.nr ∨ src.nr = 1)
    (hc : src.nc = dest.nc ∨ src.nc = 1)
    (n j r c : ℕ) (h1 : n < dest.num_samples) (h2 : j < dest.k)
    (h3 : r < dest.nr) (h4 : c < dest.nc) :
    (add beta dest alpha src).val n j r c =
      beta * dest.val n j r c +
        alpha * src.val (if src.num_samples = 1 then 0 else n)
          (if src.k = 1 then 0 else j) (if src.nr = 1 then 0 else r)
          (if src.nc = 1 then 0 else c) ∧
    have_same_dimensions (add beta dest alpha src) dest := by
  constructor
  · show beta * dest.val n j r c + alpha * src.val (n % src.num_samples)
      (j % src.k) (r % src.nr) (c % src.nc) = _
    rw [broadcast_index_mod _ _ _ hn h1, broadcast_index_mod _ _ _ hk h2,
      broadcast_index_mod _ _ _ hr h3, broadcast_index_mod _ _ _ hc h4]
  · exact ⟨rfl, rfl, rfl, rfl⟩

/-- C4 witness: broadcast add evaluated on concrete tensors, with the sample
dimension of `src` broadcast. -/
theorem add_broadcast_spec_witness :
    (add 2 (cTensor 2 1 1 1 (7 : ℚ)) 3 (cTensor 1 1 1 1 (5 : ℚ))).val 1 0 0 0 =
      2 * (cTensor 2 1 1 1 (7 : ℚ)).val 1 0 0 0 +
        3 * (cTensor 1 1 1 1 (5 : ℚ)).val
          (if (cTensor 1 1 1 1 (5 : ℚ)).num_samples = 1 then 0 else 1)
          (if (cTensor 1 1 1 1 (5 : ℚ)).k = 1 then 0 else 0)
          (if (cTensor 1 1 1 1 (5 : ℚ)).nr = 1 then 0 else 0)
          (if (cTensor 1 1 1 1 (5 : ℚ)).nc = 1 then 0 else 0) ∧
    have_same_dimensions
      (add 2 (cTensor 2 1 1 1 (7 : ℚ)) 3 (cTensor 1 1 1 1 (5 : ℚ)))
      (cTensor 2 1 1 1 (7 : ℚ)) :=
  add_broadcast_spec 2 3 (cTensor 2 1 1 1 7) (cTensor 1 1 1 1 5)
    (Or.inr rfl) (Or.inl rfl) (Or.inl rfl) (Or.inl rfl) 1 0 0 0
    (by decide) (by decide) (by decide) (by decide)

/-- C10: the forward activations compute, at every element, `sigmoid` as
`1/(1+exp(-src[i]))`, `relu` as `max(0, src[i])` and `tanh` as
`tanh(src[i])`; each produces the same values when invoked in place
(`dest` and `src` the same tensor), and each keeps `dest`'s dimensions. -/
theorem activation_forward_spec (dest src : tensor ℝ) (s j r c : ℕ) :
    (sigmoid dest src).val s j r c = 1 / (1 + Real.exp (-(src.val s j r c))) ∧
    (relu dest src).val s j r c = max 0 (src.val s j r c) ∧
    (tanh dest src).val s j r c = Real.tanh (src.val s j r c) ∧
    (sigmoid src src).val s j r c = (sigmoid dest src).val s j r c ∧
    (relu src src).val s j r c = (relu dest src).val s j r c ∧
    (tanh src src).val s j r c = (tanh dest src).val s j r c ∧
    have_same_dimensions (sigmoid dest src) dest ∧
    have_same_dimensions (relu dest src) dest ∧
    have_same_dimensions (tanh dest src) dest :=
  ⟨rfl, rfl, rfl, rfl, rfl, rfl, ⟨rfl, rfl, rfl, rfl⟩, ⟨rfl, rfl, rfl, rfl⟩,
    ⟨rfl, rfl, rfl, rfl⟩⟩

/-- C1: repeated convolution backward passes with identical arguments —
`get_gradient_for_data` accumulates, so a second call leaves `data_gradient`
equal to its initial value plus twice the single-call increment, while
`get_gradient_for_filters` assigns, so a second call leaves
`filters_gradient` unchanged from the first call's result. -/
theorem conv_gradient_accumulate_assign_spec
    (gradient_input filters data data_gradient filters_gradient : tensor ℚ)
    (stride_y stride_x : ℕ) :
    (∀ s j y x,
      (get_gradient_for_data gradient_input filters
          (get_gradient_for_data gradient_input filters data_gradient
            stride_y stride_x) stride_y stride_x).val s j y x =
        data_gradient.val s j y x +
          2 * ((get_gradient_for_data gradient_input filters data_gradient
              stride_y stride_x).val s j y x - data_gradient.val s j y x)) ∧
    get_gradient_for_filters gradient_input data
        (get_gradient_for_filters gradient_input data filters_gradient
          stride_y stride_x) stride_y stride_x =
      get_gradient_for_filters gradient_input data filters_gradient
        stride_y stride_x := by
  constructor
  · intro s j y x
    show data_gradient.val s j y x +
        conv_data_grad gradient_input filters stride_y stride_x s j y x +
        conv_data_grad gradient_input filters stride_y stride_x s j y x = _
    show _ = data_gradient.val s j y x +
        2 * (data_gradient.val s j y x +
          conv_data_grad gradient_input filters stride_y stride_x s j y x -
            data_gradient.val s j y x)
    ring
  · rfl

/-- The `1+(n-1)/s` formula computes the ceiling of `n/s` for positive `n`
and `s`. -/
lemma one_add_pred_div_eq_ceilDiv (n s : ℕ) (hn : 0 < n) (hs : 0 < s) :
    1 + (n - 1) / s = n ⌈/⌉ s := by
  rw [Nat.ceilDiv_eq_add_pred_div]
  have h : n + s - 1 = (n - 1) + s := by omega
  rw [h, Nat.add_div_right _ hs, Nat.add_comm]

/-- C2: for data and filters matching a setup configuration
(`filters.k = data.k`, positive strides) and nonempty data, the forward
convolution output has `num_samples = data.num_samples`,
`k = filters.num_samples`, `nr = 1+(data.nr-1)/stride_y` and
`nc = 1+(data.nc-1)/stride_x`, which are the ceiling divisions of the data
rows/cols by the strides. -/
theorem conv_output_shape_spec (data filters : tensor ℚ)
    (stride_y stride_x : ℕ) (hk : filters.k = data.k)
    (hsy : 0 < stride_y) (hsx : 0 < stride_x)
    (hnr : 0 < data.nr) (hnc : 0 < data.nc) :
    (conv data filters stride_y stride_x).num_samples = data.num_samples ∧
    (conv data filters stride_y stride_x).k = filters.num_samples ∧
    (conv data filters stride_y stride_x).nr = 1 + (data.nr - 1) / stride_y ∧
    (conv data filters stride_y stride_x).nc = 1 + (data.nc - 1) / stride_x ∧
    (conv data filters stride_y stride_x).nr = data.nr ⌈/⌉ stride_y ∧
    (conv data filters stride_y stride_x).nc = data.nc ⌈/⌉ stride_x :=
  ⟨rfl, rfl, rfl, rfl, one_add_pred_div_eq_ceilDiv data.nr stride_y hnr hsy,
    one_add_pred_div_eq_ceilDiv data.nc stride_x hnc hsx⟩

/-- C2 witness: convolution output shape on a concrete configuration with a
stride that does not divide the data rows/cols. -/
theorem conv_output_shape_spec_witness :
    (conv (cTensor 1 1 5 5 (0 : ℚ)) (cTensor 1 1 3 3 (0 : ℚ)) 2 2).num_samples
        = (cTensor 1 1 5 5 (0 : ℚ)).num_samples ∧
    (conv (cTensor 1 1 5 5 (0 : ℚ)) (cTensor 1 1 3 3 (0 : ℚ)) 2 2).k
        = (cTensor 1 1 3 3 (0 : ℚ)).num_samples ∧
    (conv (cTensor 1 1 5 5 (0 : ℚ)) (cTensor 1 1 3 3 (0 : ℚ)) 2 2).nr
        = 1 + ((cTensor 1 1 5 5 (0 : ℚ)).nr - 1) / 2 ∧
    (conv (cTensor 1 1 5 5 (0 : ℚ)) (cTensor 1 1 3 3 (0 : ℚ)) 2 2).nc
        = 1 + ((cTensor 1 1 5 5 (0 : ℚ)).nc - 1) / 2 ∧
    (conv (cTensor 1 1 5 5 (0 : ℚ)) (cTensor 1 1 3 3 (0 : ℚ)) 2 2).nr
        = (cTensor 1 1 5 5 (0 : ℚ)).nr ⌈/⌉ 2 ∧
    (conv (cTensor 1 1 5 5 (0 : ℚ)) (cTensor 1 1 3 3 (0 : ℚ)) 2 2).nc
        = (cTensor 1 1 5 5 (0 : ℚ)).nc ⌈/⌉ 2 :=
  conv_output_shape_spec (cTensor 1 1 5 5 0) (cTensor 1 1 3 3 0) 2 2
    rfl (by decide) (by decide) (by decide) (by decide)

/-- C6: `softmax(dest, src)` computes, independently at each spatial
location, the normalized exponential of the channel values there; at every
location the output channel values are non-negative and sum to 1, and the
result has `src`'s dimensions. -/
theorem softmax_spec (dest src : tensor ℝ) (h : have_same_dimensions dest src)
    (hk : 0 < src.k) (s r c : ℕ) :
    (∀ j, 0 ≤ (softmax dest src).val s j r c) ∧
    (∑ j ∈ Finset.range src.k, (softmax dest src).val s j r c) = 1 ∧
    (∀ j, (softmax dest src).val s j r c =
      Real.exp (src.val s j r c) /
        ∑ i ∈ Finset.range src.k, Real.exp (src.val s i r c)) ∧
    have_same_dimensions (softmax dest src) src := by
  have hpos : 0 < ∑ i ∈ Finset.range src.k, Real.exp (src.val s i r c) :=
    Finset.sum_pos (fun i _ => Real.exp_pos _) ⟨0, Finset.mem_range.mpr hk⟩
  refine ⟨fun j => ?_, ?_, fun j => rfl, ?_⟩
  · exact div_nonneg (Real.exp_pos _).le hpos.le
  · show (∑ j ∈ Finset.range src.k, Real.exp (src.val s j r c) /
        ∑ i ∈ Finset.range src.k, Real.exp (src.val s i r c)) = 1
    rw [← Finset.sum_div, div_self hpos.ne']
  · obtain ⟨h1, h2, h3, h4⟩ := h
    exact ⟨h1, h2, h3, h4⟩

/-- C6 witness: softmax evaluated on a concrete two-channel tensor. -/
theorem softmax_spec_witness :
    (∀ j, 0 ≤ (softmax (cTensor 1 2 1 1 (0 : ℝ)) (cTensor 1 2 1 1 (0 : ℝ))).val
        0 j 0 0) ∧
    (∑ j ∈ Finset.range (cTensor 1 2 1 1 (0 : ℝ)).k,
      (softmax (cTensor 1 2 1 1 (0 : ℝ)) (cTensor 1 2 1 1 (0 : ℝ))).val 0 j 0 0)
        = 1 ∧
    (∀ j, (softmax (cTensor 1 2 1 1 (0 : ℝ)) (cTensor 1 2 1 1 (0 : ℝ))).val
        0 j 0 0 =
      Real.exp ((cTensor 1 2 1 1 (0 : ℝ)).val 0 j 0 0) /
        ∑ i ∈ Finset.range (cTensor 1 2 1 1 (0 : ℝ)).k,
          Real.exp ((cTensor 1 2 1 1 (0 : ℝ)).val 0 i 0 0)) ∧
    have_same_dimensions
      (softmax (cTensor 1 2 1 1 (0 : ℝ)) (cTensor 1 2 1 1 (0 : ℝ)))
      (cTensor 1 2 1 1 (0 : ℝ)) :=
  softmax_spec (cTensor 1 2 1 1 0) (cTensor 1 2 1 1 0)
    ⟨rfl, rfl, rfl, rfl⟩ (by decide) 0 0 0

/-- The logistic sigmoid satisfies the closed-form derivative
`sigmoid(x) * (1 - sigmoid(x))`. -/
lemma sigmoidFn_hasDerivAt (x : ℝ) :
    HasDerivAt sigmoidFn (sigmoidFn x * (1 - sigmoidFn x)) x := by
  have hexp : HasDerivAt (fun y : ℝ => Real.exp (-y)) (Real.exp (-x) * -1) x :=
    HasDerivAt.exp (hasDerivAt_id x).neg
  have hden : HasDerivAt (fun y : ℝ => 1 + Real.exp (-y))
      (Real.exp (-x) * -1) x := hexp.const_add 1
  have hne : (1 : ℝ) + Real.exp (-x) ≠ 0 := by positivity
  have hinv := hden.inv hne
  have heq : sigmoidFn = fun y : ℝ => (1 + Real.exp (-y))⁻¹ := by
    funext y
    simp [sigmoidFn, one_div]
  rw [heq]
  convert hinv using 1
  simp only [sigmoidFn]
  field_simp
  ring

/-- The hyperbolic tangent satisfies the closed-form derivative
`1 - tanh(x)^2`. -/
lemma tanhFn_hasDerivAt (x : ℝ) :
    HasDerivAt Real.tanh (1 - Real.tanh x ^ 2) x := by
  have hne : Real.cosh x ≠ 0 := (Real.cosh_pos x).ne'
  have hdiv := (Real.hasDerivAt_sinh x).div (Real.hasDerivAt_cosh x) hne
  have heq : Real.tanh = fun y : ℝ => Real.sinh y / Real.cosh y :=
    funext Real.tanh_eq_sinh_div_cosh
  rw [heq]
  convert hdiv using 1
  show 1 - (Real.sinh x / Real.cosh x) ^ 2 = _
  field_simp
  nlinarith [Real.cosh_sq_sub_sinh_sq x]

/-- C5 counterexample: `sigmoid_gradient` does not accumulate into `grad` —
with `grad` initially 1, `dest` 1/2 and `gradient_input` 1, the result is
the fresh value `1/4`, not the initial value plus the increment. -/
theorem sigmoid_gradient_not_accumulate :
    ¬ (sigmoid_gradient (cTensor 1 1 1 1 (1 : ℚ)) (cTensor 1 1 1 1 (1 / 2 : ℚ))
        (cTensor 1 1 1 1 (1 : ℚ))).val 0 0 0 0 =
      (cTensor 1 1 1 1 (1 : ℚ)).val 0 0 0 0 +
        (cTensor 1 1 1 1 (1 : ℚ)).val 0 0 0 0 *
          ((cTensor 1 1 1 1 (1 / 2 : ℚ)).val 0 0 0 0 *
            (1 - (cTensor 1 1 1 1 (1 / 2 : ℚ)).val 0 0 0 0)) := by
  show ¬ ((1 : ℚ) * ((1 / 2 : ℚ) * (1 - (1 / 2 : ℚ))) =
    (1 : ℚ) + (1 : ℚ) * ((1 / 2 : ℚ) * (1 - (1 / 2 : ℚ))))
  norm_num

/-- C5 (amended): `sigmoid_gradient`, `relu_gradient` and `tanh_gradient`
ASSIGN into `grad` (the result is independent of `grad`'s prior values)
the elementwise product of `gradient_input` with the activation's
derivative, which each function expresses purely in terms of the forward
output `dest`: `dest*(1-dest)` for sigmoid — the true derivative of the
sigmoid at the forward input; `1` where `dest > 0` (equivalently where
`src > 0`) and `0` elsewhere for relu; `1 - dest^2` for tanh — the true
derivative of `tanh` at the forward input. -/
theorem activation_gradient_assign_spec
    (grad grad2 dest0 src gradient_input : tensor ℝ) (s j r c : ℕ) :
    ((sigmoid_gradient grad (sigmoid dest0 src) gradient_input).val s j r c =
        gradient_input.val s j r c * ((sigmoid dest0 src).val s j r c *
          (1 - (sigmoid dest0 src).val s j r c)) ∧
      HasDerivAt sigmoidFn ((sigmoid dest0 src).val s j r c *
        (1 - (sigmoid dest0 src).val s j r c)) (src.val s j r c) ∧
      (sigmoid_gradient grad (sigmoid dest0 src) gradient_input).val =
        (sigmoid_gradient grad2 (sigmoid dest0 src) gradient_input).val) ∧
    ((relu_gradient grad (relu dest0 src) gradient_input).val s j r c =
        (if 0 < src.val s j r c then gradient_input.val s j r c else 0) ∧
      (relu_gradient grad (relu dest0 src) gradient_input).val =
        (relu_gradient grad2 (relu dest0 src) gradient_input).val) ∧
    ((tanh_gradient grad (tanh dest0 src) gradient_input).val s j r c =
        gradient_input.val s j r c *
          (1 - (tanh dest0 src).val s j r c ^ 2) ∧
      HasDerivAt Real.tanh (1 - (tanh dest0 src).val s j r c ^ 2)
        (src.val s j r c) ∧
      (tanh_gradient grad (tanh dest0 src) gradient_input).val =
        (tanh_gradient grad2 (tanh dest0 src) gradient_input).val) := by
  refine ⟨⟨rfl, sigmoidFn_hasDerivAt _, rfl⟩, ⟨?_, rfl⟩,
    ⟨rfl, tanhFn_hasDerivAt _, rfl⟩⟩
  show (if 0 < max 0 (src.val s j r c) then gradient_input.val s j r c else 0)
    = _
  have hmax : 0 < max 0 (src.val s j r c) ↔ 0 < src.val s j r c := by
    simp [lt_max_iff]
  by_cases hv : 0 < src.val s j r c
  · rw [if_pos (hmax.mpr hv), if_pos hv]
  · rw [if_neg (fun hc2 => hv (hmax.mp hc2)), if_neg hv]

/-- The seed of a fold of `max` is a lower bound of the fold's result. -/
lemma le_foldl_max {α : Type} [LinearOrder α] (l : List α) (a : α) :
    a ≤ l.foldl max a := by
  induction l generalizing a with
  | nil => exact le_refl a
  | cons x xs ih => exact le_trans (le_max_left a x) (ih (max a x))

/-- Every member of a list is a lower bound of a fold of `max` over it. -/
lemma mem_le_foldl_max {α : Type} [LinearOrder α] {l : List α} {x : α}
    (hx : x ∈ l) (a : α) : x ≤ l.foldl max a := by
  induction l generalizing a with
  | nil => cases hx
  | cons y ys ih =>
    rw [List.foldl_cons]
    rcases List.mem_cons.mp hx with h | h
    · subst h
      exact le_trans (le_max_right a x) (le_foldl_max ys (max a x))
    · exact ih h (max a y)

/-- A fold of `max` over a list returns the seed or a member of the list. -/
lemma foldl_max_eq_seed_or_mem {α : Type} [LinearOrder α] (l : List α) (a : α) :
    l.foldl max a = a ∨ l.foldl max a ∈ l := by
  induction l generalizing a with
  | nil => exact Or.inl rfl
  | cons x xs ih =>
    rcases ih (max a x) with h | h
    · rcases max_choice a x with hm | hm
      · exact Or.inl (by rw [List.foldl_cons, h, hm])
      · exact Or.inr (by rw [List.foldl_cons, h, hm]; exact List.mem_cons_self x xs)
    · exact Or.inr (List.mem_cons_of_mem x h)

/-- The window's anchor element belongs to the clipped window element list
when the anchor lies inside the image and the window is nonempty. -/
lemma anchor_mem_windowElems {α : Type} (src : tensor α)
    (wh ww sy sx s j r c : ℕ) (hwh : 0 < wh) (hww : 0 < ww)
    (hr : r * sy < src.nr) (hc : c * sx < src.nc) :
    src.val s j (r * sy) (c * sx) ∈ windowElems src wh ww sy sx s j r c := by
  refine List.mem_flatMap.mpr ⟨0, List.mem_range.mpr hwh, ?_⟩
  refine List.mem_filterMap.mpr ⟨0, List.mem_range.mpr hww, ?_⟩
  have h1 : r * sy + 0 < src.nr := by simpa using hr
  have h2 : c * sx + 0 < src.nc := by simpa using hc
  rw [if_pos ⟨h1, h2⟩]
  simp

/-- C3: a configured `max_pool` produces output with
`num_samples = src.num_samples`, `k = src.k`, `nr = src.nr/stride_y` and
`nc = src.nc/stride_x` (floor division), and each output element is the
maximum of `src` over the boundary-clipped
`window_height × window_width` window anchored at
`(r*stride_y, c*stride_x)`: it is an element of that window and an upper
bound of all the window's elements. -/
theorem max_pool_spec (src : tensor ℚ) (window_height window_width sy sx : ℕ)
    (hwh : 0 < window_height) (hww : 0 < window_width)
    (hsy : 0 < sy) (hsx : 0 < sx)
    (hnr : sy ≤ src.nr) (hnc : sx ≤ src.nc) (s j r c : ℕ)
    (hr : r < src.nr / sy) (hc : c < src.nc / sx) :
    (max_pool src window_height window_width sy sx).num_samples =
        src.num_samples ∧
    (max_pool src window_height window_width sy sx).k = src.k ∧
    (max_pool src window_height window_width sy sx).nr = src.nr / sy ∧
    (max_pool src window_height window_width sy sx).nc = src.nc / sx ∧
    (max_pool src window_height window_width sy sx).val s j r c ∈
      windowElems src window_height window_width sy sx s j r c ∧
    ∀ v ∈ windowElems src window_height window_width sy sx s j r c,
      v ≤ (max_pool src window_height window_width sy sx).val s j r c := by
  have hanchor_r : r * sy < src.nr := by
    have h1 : (r + 1) * sy ≤ (src.nr / sy) * sy :=
      Nat.mul_le_mul_right sy hr
    have h2 : (src.nr / sy) * sy ≤ src.nr := Nat.div_mul_le_self src.nr sy
    have h3 : r * sy + sy ≤ src.nr := by
      calc r * sy + sy = (r + 1) * sy := by ring
        _ ≤ (src.nr / sy) * sy := h1
        _ ≤ src.nr := h2
    omega
  have hanchor_c : c * sx < src.nc := by
    have h1 : (c + 1) * sx ≤ (src.nc / sx) * sx :=
      Nat.mul_le_mul_right sx hc
    have h2 : (src.nc / sx) * sx ≤ src.nc := Nat.div_mul_le_self src.nc sx
    have h3 : c * sx + sx ≤ src.nc := by
      calc c * sx + sx = (c + 1) * sx := by ring
        _ ≤ (src.nc / sx) * sx := h1
        _ ≤ src.nc := h2
    omega
  refine ⟨rfl, rfl, rfl, rfl, ?_, ?_⟩
  · rcases foldl_max_eq_seed_or_mem
        (windowElems src window_height window_width sy sx s j r c)
        (src.val s j (r * sy) (c * sx)) with h | h
    · show List.foldl max _ _ ∈ _
      rw [h]
      exact anchor_mem_windowElems src window_height window_width sy sx s j r c
        hwh hww hanchor_r hanchor_c
    · exact h
  · intro v hv
    exact mem_le_foldl_max hv (src.val s j (r * sy) (c * sx))

/-- C3 witness: max pooling evaluated on a concrete 4×4 image with a 2×2
window and stride 2. -/
theorem max_pool_spec_witness :
    (max_pool (cTensor 1 1 4 4 (0 : ℚ)) 2 2 2 2).num_samples =
        (cTensor 1 1 4 4 (0 : ℚ)).num_samples ∧
    (max_pool (cTensor 1 1 4 4 (0 : ℚ)) 2 2 2 2).k =
        (cTensor 1 1 4 4 (0 : ℚ)).k ∧
    (max_pool (cTensor 1 1 4 4 (0 : ℚ)) 2 2 2 2).nr =
        (cTensor 1 1 4 4 (0 : ℚ)).nr / 2 ∧
    (max_pool (cTensor 1 1 4 4 (0 : ℚ)) 2 2 2 2).nc =
        (cTensor 1 1 4 4 (0 : ℚ)).nc / 2 ∧
    (max_pool (cTensor 1 1 4 4 (0 : ℚ)) 2 2 2 2).val 0 0 1 1 ∈
      windowElems (cTensor 1 1 4 4 (0 : ℚ)) 2 2 2 2 0 0 1 1 ∧
    ∀ v ∈ windowElems (cTensor 1 1 4 4 (0 : ℚ)) 2 2 2 2 0 0 1 1,
      v ≤ (max_pool (cTensor 1 1 4 4 (0 : ℚ)) 2 2 2 2).val 0 0 1 1 :=
  max_pool_spec (cTensor 1 1 4 4 0) 2 2 2 2 (by decide) (by decide)
    (by decide) (by decide) (by decide) (by decide) 0 0 1 1
    (by decide) (by decide)

set_option maxHeartbeats 1600000 in
/-- C7: `add_conv_bias_gradient(grad, gradient_input)` with `grad` of shape
`(1,k,1,1)` assigns (independently of `grad`'s prior values) to each channel
the sum of `gradient_input` over all samples, rows and columns at that
channel, keeps `grad`'s dimensions, and the assigned vector is the gradient
of `dot(gradient_input, OUT)` with respect to `BIAS` where
`OUT = add(1, OUT0, 1, BIAS)` is the channel-broadcast bias addition:
`dot(gradient_input, add(1, OUT0, 1, BIAS))` equals
`dot(gradient_input, OUT0)` plus the sum over channels of
`BIAS[ch] * grad[ch]`. -/
theorem add_conv_bias_gradient_spec
    (grad grad2 gradient_input bias OUT0 : tensor ℚ)
    (hg1 : grad.num_samples = 1) (hg2 : grad.nr = 1) (hg3 : grad.nc = 1)
    (hgk : 0 < grad.k) (hk : gradient_input.k = grad.k)
    (hbn : bias.num_samples = 1) (hbk : bias.k = grad.k)
    (hbr : bias.nr = 1) (hbc : bias.nc = 1)
    (hout : have_same_dimensions OUT0 gradient_input) :
    (∀ ch, (add_conv_bias_gradient grad gradient_input).val 0 ch 0 0 =
      ∑ s ∈ Finset.range gradient_input.num_samples,
        ∑ r ∈ Finset.range gradient_input.nr,
          ∑ c ∈ Finset.range gradient_input.nc,
            gradient_input.val s ch r c) ∧
    (add_conv_bias_gradient grad gradient_input).val =
      (add_conv_bias_gradient grad2 gradient_input).val ∧
    have_same_dimensions (add_conv_bias_gradient grad gradient_input) grad ∧
    dot gradient_input (add 1 OUT0 1 bias) =
      dot gradient_input OUT0 +
        ∑ ch ∈ Finset.range grad.k,
          bias.val 0 ch 0 0 *
            (add_conv_bias_gradient grad gradient_input).val 0 ch 0 0 := by
  have hbk2 : bias.k = gradient_input.k := by rw [hbk, ← hk]
  have key : ∀ s r c j, j < gradient_input.k →
      bias.val (s % bias.num_samples) (j % bias.k) (r % bias.nr)
        (c % bias.nc) = bias.val 0 j 0 0 := by
    intro s r c j hj
    rw [hbn, hbr, hbc, hbk2, Nat.mod_one, Nat.mod_one, Nat.mod_one,
      Nat.mod_eq_of_lt hj]
  refine ⟨fun ch => rfl, rfl, ⟨rfl, rfl, rfl, rfl⟩, ?_⟩
  have step1 : dot gradient_input (add 1 OUT0 1 bias) =
      ∑ s ∈ Finset.range gradient_input.num_samples,
        ∑ j ∈ Finset.range gradient_input.k,
          ∑ r ∈ Finset.range gradient_input.nr,
            ∑ c ∈ Finset.range gradient_input.nc,
              (gradient_input.val s j r c * OUT0.val s j r c +
                gradient_input.val s j r c * bias.val 0 j 0 0) := by
    refine Finset.sum_congr rfl fun s _ => Finset.sum_congr rfl fun j hj =>
      Finset.sum_congr rfl fun r _ => Finset.sum_congr rfl fun c _ => ?_
    show gradient_input.val s j r c *
        (1 * OUT0.val s j r c + 1 * bias.val (s % bias.num_samples)
          (j % bias.k) (r % bias.nr) (c % bias.nc)) = _
    rw [key s r c j (Finset.mem_range.mp hj)]
    ring
  have step2 : ∀ j, (∑ s ∈ Finset.range gradient_input.num_samples,
        ∑ r ∈ Finset.range gradient_input.nr,
          ∑ c ∈ Finset.range gradient_input.nc,
            gradient_input.val s j r c * bias.val 0 j 0 0) =
      bias.val 0 j 0 0 * ∑ s ∈ Finset.range gradient_input.num_samples,
        ∑ r ∈ Finset.range gradient_input.nr,
          ∑ c ∈ Finset.range gradient_input.nc,
            gradient_input.val s j r c := by
    intro j
    rw [Finset.mul_sum]
    refine Finset.sum_congr rfl fun s _ => ?_
    rw [Finset.mul_sum]
    refine Finset.sum_congr rfl fun r _ => ?_
    rw [Finset.mul_sum]
    exact Finset.sum_congr rfl fun c _ => mul_comm _ _
  rw [step1]
  simp only [Finset.sum_add_distrib]
  congr 1
  rw [Finset.sum_comm]
  calc (∑ j ∈ Finset.range gradient_input.k,
        ∑ s ∈ Finset.range gradient_input.num_samples,
          ∑ r ∈ Finset.range gradient_input.nr,
            ∑ c ∈ Finset.range gradient_input.nc,
              gradient_input.val s j r c * bias.val 0 j 0 0)
      = ∑ j ∈ Finset.range gradient_input.k,
          bias.val 0 j 0 0 * ∑ s ∈ Finset.range gradient_input.num_samples,
            ∑ r ∈ Finset.range gradient_input.nr,
              ∑ c ∈ Finset.range gradient_input.nc,
                gradient_input.val s j r c :=
        Finset.sum_congr rfl fun j _ => step2 j
    _ = ∑ ch ∈ Finset.range grad.k,
          bias.val 0 ch 0 0 *
            (add_conv_bias_gradient grad gradient_input).val 0 ch 0 0 := by
        rw [hk]
        rfl

/-- C7 witness: the bias-gradient reduction and its adjoint identity
evaluated on concrete tensors. -/
theorem add_conv_bias_gradient_spec_witness :
    (∀ ch, (add_conv_bias_gradient (cTensor 1 2 1 1 (9 : ℚ))
        (cTensor 2 2 2 2 (1 : ℚ))).val 0 ch 0 0 =
      ∑ s ∈ Finset.range (cTensor 2 2 2 2 (1 : ℚ)).num_samples,
        ∑ r ∈ Finset.range (cTensor 2 2 2 2 (1 : ℚ)).nr,
          ∑ c ∈ Finset.range (cTensor 2 2 2 2 (1 : ℚ)).nc,
            (cTensor 2 2 2 2 (1 : ℚ)).val s ch r c) ∧
    (add_conv_bias_gradient (cTensor 1 2 1 1 (9 : ℚ))
        (cTensor 2 2 2 2 (1 : ℚ))).val =
      (add_conv_bias_gradient (cTensor 1 2 1 1 (0 : ℚ))
        (cTensor 2 2 2 2 (1 : ℚ))).val ∧
    have_same_dimensions (add_conv_bias_gradient (cTensor 1 2 1 1 (9 : ℚ))
      (cTensor 2 2 2 2 (1 : ℚ))) (cTensor 1 2 1 1 (9 : ℚ)) ∧
    dot (cTensor 2 2 2 2 (1 : ℚ))
        (add 1 (cTensor 2 2 2 2 (1 : ℚ)) 1 (cTensor 1 2 1 1 (3 : ℚ))) =
      dot (cTensor 2 2 2 2 (1 : ℚ)) (cTensor 2 2 2 2 (1 : ℚ)) +
        ∑ ch ∈ Finset.range (cTensor 1 2 1 1 (9 : ℚ)).k,
          (cTensor 1 2 1 1 (3 : ℚ)).val 0 ch 0 0 *
            (add_conv_bias_gradient (cTensor 1 2 1 1 (9 : ℚ))
              (cTensor 2 2 2 2 (1 : ℚ))).val 0 ch 0 0 :=
  add_conv_bias_gradient_spec (cTensor 1 2 1 1 9) (cTensor 1 2 1 1 0)
    (cTensor 2 2 2 2 1) (cTensor 1 2 1 1 3) (cTensor 2 2 2 2 1)
    rfl rfl rfl (by decide) rfl rfl rfl rfl rfl ⟨rfl, rfl, rfl, rfl⟩

end cuda

end dlib
